import Mathlib

/-!
# Verification of the blink alias-namespace and ranked-search core

A shallow embedding, in Lean, of the JavaScript core of the `blink` URL-shortcut
manager: field validators (`src/services/validators.js`), the shortcut CRUD and
search service (`src/services/shortcutService.js`), the folder service, the
result-caching query controller (`src/hooks/useSearchData.js`) and the debounced
multi-criteria search hook.

Strings are embedded as `List Char` (`Str`); JavaScript's `Array.prototype.sort`
(stable since ES2019) is embedded as `List.insertionSort` over the non-strict
order induced by the comparator, which computes the unique stable sorted
permutation for the consistent comparators used by this code.  Fallible service
operations return an `Except` result *paired with the store they leave behind*,
so that a failed operation that has already mutated part of the store is
represented faithfully.
-/

deriving instance DecidableEq for Except

namespace Blink

/-- Strings are embedded as lists of characters. -/
abbrev Str := List Char

/-- Embed a Lean string literal. -/
def strOf (s : String) : Str := s.data

/-- JavaScript `String.prototype.trim` whitespace (the code only ever meets
ASCII whitespace). -/
def isWsChar (c : Char) : Bool := c = ' ' || c = '\t' || c = '\n' || c = '\r'

/-- ASCII lower-casing of one character, as `String.prototype.toLowerCase`
acts on the ASCII inputs this code handles. -/
def lowerChar (c : Char) : Char :=
  if 'A' ≤ c ∧ c ≤ 'Z' then Char.ofNat (c.toNat + 32) else c

/-- JavaScript `s.toLowerCase()`. -/
def lowerStr (s : Str) : Str := s.map lowerChar

/-- JavaScript `s.trim()`. -/
def trimStr (s : Str) : Str :=
  ((s.dropWhile isWsChar).reverse.dropWhile isWsChar).reverse

/-- The normalization `s.trim().toLowerCase()` used by every uniqueness check. -/
def normS (s : Str) : Str := lowerStr (trimStr s)

/-- JavaScript `hay.includes(needle)`: substring containment. -/
def containsSub : Str → Str → Bool
  | [], needle => needle.isEmpty
  | c :: t, needle => needle.isPrefixOf (c :: t) || containsSub t needle

/-- JavaScript `s.split(sep)` (no limit), keeping empty segments. -/
def splitOn (sep : Char) : Str → List Str
  | [] => [[]]
  | c :: t =>
    if c = sep then [] :: splitOn sep t
    else
      match splitOn sep t with
      | [] => [[c]]
      | h :: rest => (c :: h) :: rest

/-- The second segment of `s.split(sep, 2)`: the text between the first
separator and the second separator (or the end). -/
def seg2 (sep : Char) (s : Str) : Str :=
  ((s.dropWhile (· ≠ sep)).drop 1).takeWhile (· ≠ sep)

/-- Code-unit lexicographic comparison, the order of JavaScript's default
string sort and of `localeCompare` on the lowercase ASCII inputs this code
compares. -/
def lexCmp : Str → Str → Int
  | [], [] => 0
  | [], _ :: _ => -1
  | _ :: _, [] => 1
  | a :: as, b :: bs => if a < b then -1 else if b < a then 1 else lexCmp as bs

/-- JavaScript's stable `Array.prototype.sort(c)`: the unique stable sorted
permutation under a consistent comparator, computed by stable insertion
sort on the non-strict order `c a b ≤ 0`. -/
def jsSort (c : α → α → Int) (l : List α) : List α :=
  List.insertionSort (fun a b => c a b ≤ 0) l

section Validators

/-- The validation failure kinds of `validators.js`; each constructor stands
for one of the distinct error message strings of the source. -/
inductive VErr
  | required        -- "... is required" / "Tag must be a string"
  | emptyErr        -- "... cannot be empty"
  | tooShort        -- "... must be at least 1 character" (dead branch)
  | tooLong         -- "... too long" / "max ... characters"
  | badProtocol     -- "URL must use HTTP or HTTPS protocol"
  | unparseable     -- "Invalid URL format"
  | badChars        -- charset violation message
  | notLower        -- "Tags must be lowercase only"
  | tooManyTags     -- "Maximum 20 tags allowed"
deriving DecidableEq

/-- An ASCII letter. -/
def isAlphaChar (c : Char) : Bool :=
  ('a' ≤ c && c ≤ 'z') || ('A' ≤ c && c ≤ 'Z')

/-- Modelled from the spec: the host environment's WHATWG URL parser
(`new URL(s)`), which is not part of this repository.  The model extracts a
nonempty all-letter scheme before a `':'` and reports it lower-cased with the
trailing `':'`, the shape `validateUrl` inspects via `urlObj.protocol`;
inputs without such a scheme fail to parse. -/
def urlProtocol (s : Str) : Option Str :=
  let scheme := s.takeWhile (· ≠ ':')
  if scheme.length < s.length ∧ scheme ≠ [] ∧ scheme.all isAlphaChar then
    some (lowerStr scheme ++ [':'])
  else
    none

/-- Embeds `validateUrl` of `validators.js`; `none` means valid. -/
def validateUrl (url : Str) : Option VErr :=
  if url = [] then some .required
  else
    let trimmed := trimStr url
    if trimmed = [] then some .emptyErr
    else if trimmed.length > 2048 then some .tooLong
    else
      match urlProtocol trimmed with
      | none => some .unparseable
      | some p =>
        if p = strOf (r"http:") ∨ p = strOf (r"https:") then none
        else some .badProtocol

/-- The alias charset `/^[a-z0-9-]+$/` of `validateAlias`. -/
def isAliasChar (c : Char) : Bool :=
  ('a' ≤ c && c ≤ 'z') || ('0' ≤ c && c ≤ '9') || c = '-'

/-- Embeds `validateAlias` of `validators.js`; `none` means valid. -/
def validateAlias («alias» : Str) : Option VErr :=
  if «alias» = [] then some .required
  else
    let trimmed := trimStr «alias»
    if trimmed = [] then some .emptyErr
    else if trimmed.length < 1 then some .tooShort
    else if trimmed.length > 50 then some .tooLong
    else if !(trimmed.all isAliasChar) then some .badChars
    else none

/-- The folder charset `/^[a-zA-Z0-9-_]+$/` of `validateFolderName`. -/
def isFolderChar (c : Char) : Bool :=
  ('a' ≤ c && c ≤ 'z') || ('A' ≤ c && c ≤ 'Z') || ('0' ≤ c && c ≤ '9') ||
    c = '-' || c = '_'

/-- Embeds `validateFolderName` of `validators.js`; a `none` (JS `undefined`) or
empty-after-trim folder is the root and always valid. -/
def validateFolderName (folderName : Option Str) : Option VErr :=
  match folderName with
  | none => none
  | some f =>
    if f = [] then none
    else
      let trimmed := trimStr f
      if trimmed = [] then none
      else if trimmed.length < 1 then some .tooShort
      else if trimmed.length > 30 then some .tooLong
      else if !(trimmed.all isFolderChar) then some .badChars
      else none

/-- The tag charset `/^[a-z0-9-]+$/` of `validateTag`. -/
def isTagChar (c : Char) : Bool := isAliasChar c

/-- Embeds `validateTag` of `validators.js`; `none` means valid. -/
def validateTag (tag : Str) : Option VErr :=
  if tag = [] then some .required
  else
    let trimmed := trimStr tag
    if trimmed = [] then some .emptyErr
    else if trimmed.length > 20 then some .tooLong
    else if trimmed ≠ lowerStr trimmed then some .notLower
    else if !(trimmed.all isTagChar) then some .badChars
    else none

/-- The `tags` argument of `validateTags`: JS `undefined`/empty (falsy), a
comma-separated string, or an array of strings. -/
inductive TagsInput
  | noTags
  | csv (s : Str)
  | arr (l : List Str)
deriving DecidableEq

/-- The first `validateTag` failure in a list, in order (`validateTags`'
per-tag loop). -/
def firstTagError : List Str → Option VErr
  | [] => none
  | t :: rest =>
    match validateTag t with
    | some e => some e
    | none => firstTagError rest

/-- JavaScript `[...new Set(xs)]`: deduplicate keeping first occurrences, in order. -/
def dedupAux (seen : List Str) : List Str → List Str
  | [] => []
  | x :: t => if seen.contains x then dedupAux seen t else x :: dedupAux (x :: seen) t

def dedupFirst (l : List Str) : List Str := dedupAux [] l

/-- The shared tail of `validateTags` once the input has been turned into an
array of trimmed entries: drop empties, enforce the count bound, validate each
tag, deduplicate and sort. -/
def processTags (entries : List Str) : Except VErr (List Str) :=
  let tagArray := entries.filter (· ≠ [])
  if tagArray.length > 0 ∧ tagArray.length > 20 then .error .tooManyTags
  else
    match firstTagError tagArray with
    | some e => .error e
    | none => .ok (jsSort lexCmp (dedupFirst tagArray))

/-- Embeds `validateTags` of `validators.js`. -/
def validateTags (tags : TagsInput) : Except VErr (List Str) :=
  match tags with
  | .noTags => .ok []
  | .csv s =>
    if s = [] then .ok []                      -- `!tags` catches the empty string
    else if trimStr s = [] then .ok []
    else processTags ((splitOn ',' s).map trimStr)
  | .arr l => processTags (l.map trimStr)

/-- The result shape of `validateShortcut`: overall validity plus the
canonical tags list it reports on success. -/
structure ShortcutValidation where
  valid : Bool
  tags : List Str
deriving DecidableEq

/-- The body of `validateShortcut`, over the four fields it validates. -/
def validateShortcutFields (url «alias» : Str) (folder : Option Str)
    (tags : TagsInput) : ShortcutValidation :=
  let tagsRes := validateTags tags
  let ok := (validateUrl url).isNone && (validateAlias «alias»).isNone &&
    (validateFolderName folder).isNone && tagsRes.isOk
  ⟨ok, match tagsRes with | .ok ts => ts | .error _ => []⟩

end Validators

section ShortcutService

/-- A stored shortcut record (`shortcutService.js`).  `id` is the IndexedDB
key (a UUID in the source, embedded as `Nat`); timestamps are embedded as
`Nat` instants supplied by the caller in place of `formatDateISO()` /
`Date.now()`. -/
structure Shortcut where
  id : Nat
  url : Str
  «alias» : Str
  folder : Str
  tags : List Str
  createdAt : Nat
  updatedAt : Nat
  lastAccessed : Option Nat
  accessCount : Nat
  isFavorite : Bool
deriving DecidableEq

/-- The `shortcuts` object store, in insertion order (`getAll()` order). -/
abbrev Store := List Shortcut

/-- The errors thrown by `shortcutService.js`; each constructor stands for one
of the thrown `Error` messages. -/
inductive SErr
  | validationFailed                -- "Validation failed: ..."
  | duplicateAlias (fullAlias : Str) -- "Alias already exists: <fullAlias>"
  | notFound (id : Nat)             -- "Shortcut not found: <id>"
  | renameConflict («alias» : Str)  -- "Cannot rename folder: alias conflict for <alias>"
  | addFailed                       -- "Failed to create shortcut: <store error>"
deriving DecidableEq

/-- The `data` argument of `createShortcut`: `{ url, alias, folder, tags }`
with `folder` and `tags` possibly absent (JS `undefined`). -/
structure Draft where
  url : Str
  «alias» : Str
  folder : Option Str
  tags : TagsInput
deriving DecidableEq

/-- Runs `validateShortcut(data)` on a create draft. -/
def validateDraft (d : Draft) : ShortcutValidation :=
  validateShortcutFields d.url d.«alias» d.folder d.tags

/-- The raw full alias interpolated into the "Alias already exists" message:
`(folder ? folder + "/" : "") + alias`. -/
def rawFullAlias (folder «alias» : Str) : Str :=
  (if folder = [] then [] else folder ++ ['/']) ++ «alias»

/-- Embeds `getShortcutByFullAlias(folder, alias)`: first stored shortcut whose
trim-and-lowercase normalized `(folder, alias)` pair matches the query's. -/
def getShortcutByFullAlias (st : Store) (folder «alias» : Str) : Option Shortcut :=
  st.find? fun s =>
    decide (normS s.folder = normS folder) && decide (normS s.«alias» = normS «alias»)

/-- Embeds `getShortcutsByFolder(folder)`. -/
def getShortcutsByFolder (st : Store) (folder : Str) : List Shortcut :=
  st.filter fun s => decide (normS s.folder = normS folder)

/-- Computes `data.folder ? data.folder.trim() : ""`. -/
def draftFolderStored (folder : Option Str) : Str :=
  match folder with
  | some f => if f ≠ [] then trimStr f else []
  | none => []

/-- Embeds `createShortcut(data)`.  Here `now` stands for `formatDateISO()` and `newId`
for the fresh `uuidv4()`; `store.add` rejects a key already present, so a
colliding `newId` fails like the underlying IndexedDB `add` request.  The
returned store is the store left behind by the call. -/
def createShortcut (now newId : Nat) (d : Draft) (st : Store) :
    Except SErr Shortcut × Store :=
  let v := validateDraft d
  if !v.valid then (.error .validationFailed, st)
  else
    match getShortcutByFullAlias st ((d.folder.getD []) ) d.«alias» with
    | some _ =>
      (.error (.duplicateAlias (rawFullAlias (d.folder.getD []) d.«alias»)), st)
    | none =>
      let s : Shortcut :=
        ⟨newId, trimStr d.url, trimStr d.«alias», draftFolderStored d.folder,
          v.tags, now, now, none, 0, false⟩
      if st.any (fun x => decide (x.id = newId)) then (.error .addFailed, st)
      else (.ok s, st ++ [s])

/-- The `updates` argument of `updateShortcut`, restricted to the properties
the repository passes: the four validated fields plus `accessCount`
(`incrementAccessCount`).  A `some` field is a property present on the patch
object (spread by `{...existing, ...updates}`); `none` is an absent one. -/
structure Patch where
  url : Option Str
  «alias» : Option Str
  folder : Option Str
  tags : Option TagsInput
  accessCount : Option Nat
deriving DecidableEq

/-- A patch that only moves the record to `folder` (renameFolder's
`{ folder: newName }`). -/
def folderPatch (folder : Str) : Patch := ⟨none, none, some folder, none, none⟩

/-- Embeds `updateShortcut(id, updates)`.  Merges the patch over the existing record,
re-validates, re-runs the uniqueness check when `updates.alias` is truthy or
`updates.folder` is present (`updates.alias || updates.folder !== undefined`),
and `store.put`s the merged record. -/
def updateShortcut (now : Nat) (id : Nat) (p : Patch) (st : Store) :
    Except SErr Shortcut × Store :=
  match st.find? (fun s => decide (s.id = id)) with
  | none => (.error (.notFound id), st)
  | some ex =>
    let uUrl := p.url.getD ex.url
    let uAlias := p.«alias».getD ex.«alias»
    let uFolder := p.folder.getD ex.folder
    let uAccess := p.accessCount.getD ex.accessCount
    let uTagsIn := match p.tags with | some ti => ti | none => .arr ex.tags
    let v := validateShortcutFields uUrl uAlias (some uFolder) uTagsIn
    if !v.valid then (.error .validationFailed, st)
    else
      let u : Shortcut :=
        ⟨ex.id, uUrl, uAlias, uFolder, v.tags, ex.createdAt, now,
          ex.lastAccessed, uAccess, ex.isFavorite⟩
      let identityPatched : Bool :=
        (match p.«alias» with | some a => decide (a ≠ []) | none => false) ||
          p.folder.isSome
      if identityPatched then
        match getShortcutByFullAlias st uFolder uAlias with
        | some other =>
          if other.id ≠ id then
            (.error (.duplicateAlias (rawFullAlias uFolder uAlias)), st)
          else (.ok u, st.map fun s => if s.id = id then u else s)
        | none => (.ok u, st.map fun s => if s.id = id then u else s)
      else (.ok u, st.map fun s => if s.id = id then u else s)

/-- The lowercased `folder/alias` string (`${folder}/${alias}` lowercased)
built by `searchShortcuts` — note the separator is present even for the root
folder. -/
def fullAliasL (s : Shortcut) : Str := lowerStr s.folder ++ ['/'] ++ lowerStr s.«alias»

/-- Condition `aliasPart === q || fullAlias === q`: the exact-match condition. -/
def exactCondB (q : Str) (s : Shortcut) : Bool :=
  decide (lowerStr s.«alias» = q) || decide (fullAliasL s = q)

/-- Condition `aliasPart.includes(q) || fullAlias.includes(q) || folderPart.includes(q)`:
the partial-match condition. -/
def partialCondB (q : Str) (s : Shortcut) : Bool :=
  containsSub (lowerStr s.«alias») q || containsSub (fullAliasL s) q ||
    containsSub (lowerStr s.folder) q

/-- Condition `tagsLower.some((t) => t.includes(q))`: the tag-match condition. -/
def tagCondB (q : Str) (s : Shortcut) : Bool :=
  (s.tags.map lowerStr).any fun tg => containsSub tg q

/-- Condition `urlLower.includes(q)`: the URL-match condition. -/
def urlCondB (q : Str) (s : Shortcut) : Bool := containsSub (lowerStr s.url) q

/-- The single pass of `searchShortcuts` that distributes each candidate into
the `exact` / `partial` / `tagMatches` / `urlMatches` buckets, first match
winning. -/
def searchBuckets (q : Str) :
    Store → List Shortcut × List Shortcut × List Shortcut × List Shortcut
  | [] => ([], [], [], [])
  | s :: rest =>
    let (e, p, t, u) := searchBuckets q rest
    if exactCondB q s then (s :: e, p, t, u)
    else if partialCondB q s then (e, s :: p, t, u)
    else if tagCondB q s then (e, p, s :: t, u)
    else if urlCondB q s then (e, p, t, s :: u)
    else (e, p, t, u)

/-- Embeds `searchShortcuts(query)`: exact, then partial, then tag, then URL matches,
each bucket in store order. -/
def searchShortcuts (query : Str) (st : Store) : List Shortcut :=
  if trimStr query = [] then []
  else
    let q := lowerStr (trimStr query)
    let (e, p, t, u) := searchBuckets q st
    e ++ p ++ t ++ u

/-- The comparator `(b.accessCount || 0) - (a.accessCount || 0)` of
`getFrequentShortcuts`. -/
def freqCmp (a b : Shortcut) : Int := (b.accessCount : Int) - (a.accessCount : Int)

/-- Embeds `getFrequentShortcuts(limit)`: sort by access count descending (stable)
and take the first `limit`. -/
def getFrequentShortcuts (limit : Nat) (st : Store) : List Shortcut :=
  (jsSort freqCmp st).take limit

/-- Embeds `caseInsensitiveEqual` of `validators.js`. -/
def caseInsensitiveEqual (a b : Str) : Bool := decide (normS a = normS b)

/-- The per-shortcut loop of `renameFolder`: check the destination for an
alias conflict, then `updateShortcut(id, { folder: newName })`, stopping — and
keeping the store mutated so far — on the first error. -/
def renameLoop (now : Nat) (newName : Str) :
    List Shortcut → Nat → Store → Except SErr Nat × Store
  | [], updated, st => (.ok updated, st)
  | s :: rest, updated, st =>
    match getShortcutByFullAlias st newName s.«alias» with
    | some other =>
      if other.id ≠ s.id then (.error (.renameConflict s.«alias»), st)
      else
        match updateShortcut now s.id (folderPatch newName) st with
        | (.error e, st2) => (.error e, st2)
        | (.ok _, st2) => renameLoop now newName rest (updated + 1) st2
    | none =>
      match updateShortcut now s.id (folderPatch newName) st with
      | (.error e, st2) => (.error e, st2)
      | (.ok _, st2) => renameLoop now newName rest (updated + 1) st2

/-- Embeds `renameFolder(oldName, newName)` of `shortcutService.js`: a no-op when the
names are case-insensitively equal, otherwise a one-at-a-time move of every
shortcut of `oldName`. -/
def renameFolder (now : Nat) (oldName newName : Str) (st : Store) :
    Except SErr Nat × Store :=
  if caseInsensitiveEqual oldName newName then (.ok 0, st)
  else renameLoop now newName (getShortcutsByFolder st oldName) 0 st

end ShortcutService

section FolderService

/-- A folder record of the `folders` object store, keyed by exact `name`. -/
structure FolderRec where
  name : Str
  createdAt : Nat
deriving DecidableEq

abbrev FolderStore := List FolderRec

/-- The errors thrown by the folder service's `renameFolder`. -/
inductive FErr
  | invalidName                  -- "Invalid folder name: ..."
  | alreadyExists (name : Str)   -- "Folder already exists: <name>"
  | shortcutErr (e : SErr)       -- propagated from the shortcut rename
deriving DecidableEq

namespace FolderService

/-- Embeds `getFolderByName(name)`: `null` for a falsy name, otherwise the exact-key
IndexedDB `store.get(name.trim())` lookup (case-sensitive). -/
def getFolderByName (fs : FolderStore) (name : Str) : Option FolderRec :=
  if name = [] then none
  else fs.find? fun f => decide (f.name = trimStr name)

/-- Embeds `renameFolder(oldName, newName)` of the folder service: validate the new
name, no-op on case-insensitively equal names, refuse when a folder record
with the exact trimmed new name exists, then move the shortcuts and replace
the old folder record.  Returns the result together with the folder store and
shortcut store left behind. -/
def renameFolder (now : Nat) (oldName newName : Str) (fs : FolderStore)
    (st : Store) : Except FErr (Option FolderRec) × FolderStore × Store :=
  if (validateFolderName (some newName)).isSome then (.error .invalidName, fs, st)
  else
    let o := trimStr oldName
    let n := trimStr newName
    if caseInsensitiveEqual o n then (.ok (getFolderByName fs o), fs, st)
    else
      match getFolderByName fs n with
      | some _ => (.error (.alreadyExists n), fs, st)
      | none =>
        match Blink.renameFolder now o n st with
        | (.error e, st2) => (.error (.shortcutErr e), fs, st2)
        | (.ok _, st2) =>
          let fs2 := fs.filter fun f => !decide (f.name = o)
          (.ok (some ⟨n, now⟩), fs2 ++ [⟨n, now⟩], st2)

end FolderService

end FolderService

section QueryController

/-- The `resultsCache` of `useSearchData`: an object used as a map, so a list
of entries in property-insertion order. -/
abbrev SearchCache := List (Str × List Shortcut)

/-- Lookup of `resultsCache.current[normalizedQuery]`. -/
def cacheLookup (cache : SearchCache) (k : Str) : Option (List Shortcut) :=
  (cache.find? fun e => decide (e.1 = k)).map (·.2)

/-- Embeds `performSearch(query)` against a snapshot of the shortcut store: serve the
cached result list when the normalized query is cached, otherwise run
`searchShortcuts`, cache the result and evict the oldest entry beyond 50.
No mutation path of the repository ever touches this cache (`clearCache` has
no caller), which is what claim C6 is about. -/
def performSearch (query : Str) (cache : SearchCache) (snapshot : Store) :
    List Shortcut × SearchCache :=
  if trimStr query = [] then ([], cache)
  else
    let nq := lowerStr (trimStr query)
    match cacheLookup cache nq with
    | some cached => (cached, cache)
    | none =>
      let results := searchShortcuts query snapshot
      let cache2 := cache ++ [(nq, results)]
      (results, if cache2.length > 50 then cache2.drop 1 else cache2)

end QueryController

section DebouncedSearch

/-- One field test of `defaultSearchFunction`'s `searchFields.some(...)`:
falsy field values never match. -/
def fieldMatch (value searchText : Str) : Bool :=
  if value = [] then false else containsSub (lowerStr value) searchText

/-- Embeds `defaultSearchFunction(item, query)` of `useDebouncedSearch` with the
shortcut-search configuration (`searchFields = [alias, url, tags, folder]`,
case-insensitive): folder-scoped behaviour for queries containing `/`,
otherwise a substring test over the four fields (tags joined by a space). -/
def dsMatches (item : Shortcut) (query : Str) : Bool :=
  if trimStr query = [] then true
  else
    let searchText := lowerStr query
    if searchText.contains '/' then
      let folderPart := searchText.takeWhile (· ≠ '/')
      let aliasPart := seg2 '/' searchText
      let itemFolder := lowerStr item.folder
      let itemAlias := lowerStr item.«alias»
      if aliasPart = [] then containsSub itemFolder folderPart
      else containsSub itemFolder folderPart && containsSub itemAlias aliasPart
    else
      fieldMatch item.«alias» searchText || fieldMatch item.url searchText ||
        fieldMatch (List.intercalate [' '] item.tags) searchText ||
        fieldMatch item.folder searchText

/-- One field contribution of `defaultSortFunction`'s regular scoring. -/
def fieldScore (value searchText : Str) : Int :=
  let v := lowerStr value
  if v = searchText then 100
  else if searchText.isPrefixOf v then 50
  else if containsSub v searchText then 25
  else 0

/-- The match score of `defaultSortFunction`: folder-scoped scoring for
queries containing `/` (exact folder 100, partial folder 50, plus alias
scoring when an alias part is present), field-sum scoring otherwise. -/
def dsScore (item : Shortcut) (searchText : Str) : Int :=
  if searchText.contains '/' then
    let folderPart := searchText.takeWhile (· ≠ '/')
    let aliasPart := seg2 '/' searchText
    let itemFolder := lowerStr item.folder
    let itemAlias := lowerStr item.«alias»
    (if itemFolder = folderPart then 100
     else if containsSub itemFolder folderPart then 50 else 0) +
    (if aliasPart ≠ [] then
      (if itemAlias = aliasPart then 100
       else if aliasPart.isPrefixOf itemAlias then 75
       else if containsSub itemAlias aliasPart then 25 else 0)
     else 0)
  else
    fieldScore item.«alias» searchText + fieldScore item.url searchText +
      fieldScore (List.intercalate [' '] item.tags) searchText +
      fieldScore item.folder searchText

/-- Embeds `defaultSortFunction(a, b, query)`: higher score first, ties by
`localeCompare` on the lowercased aliases. -/
def dsCmp (query : Str) (a b : Shortcut) : Int :=
  if trimStr query = [] then 0
  else
    let searchText := lowerStr query
    let sa := dsScore a searchText
    let sb := dsScore b searchText
    if sa ≠ sb then sb - sa
    else lexCmp (lowerStr a.«alias») (lowerStr b.«alias»)

/-- The `filteredItems` memo of `useDebouncedSearch`: filter by the search
function, then sort by the sort function. -/
def dsFilteredItems (query : Str) (items : List Shortcut) : List Shortcut :=
  if trimStr query = [] then items
  else jsSort (dsCmp query) (items.filter (dsMatches · query))

end DebouncedSearch

section Invariant

/-- Two records have case-insensitively equal `(folder, alias)` pairs — the
comparison every uniqueness check of the source performs. -/
def keyEq (a b : Shortcut) : Prop :=
  normS a.folder = normS b.folder ∧ normS a.«alias» = normS b.«alias»

instance (a b : Shortcut) : Decidable (keyEq a b) := by
  unfold keyEq; infer_instance

/-- No two stored records have case-insensitively equal `(folder, alias)`
pairs. -/
def noDupKeysB : Store → Bool
  | [] => true
  | s :: rest => rest.all (fun t => !decide (keyEq s t)) && noDupKeysB rest

/-- No two stored records share an `id` — the structural guarantee of the
IndexedDB object store keyed by `id`. -/
def noDupIdsB : Store → Bool
  | [] => true
  | s :: rest => rest.all (fun t => !decide (s.id = t.id)) && noDupIdsB rest

/-- The store invariant: distinct keys and pairwise distinct normalized
`(folder, alias)` pairs. -/
def storeInv (st : Store) : Bool := noDupIdsB st && noDupKeysB st

/-- The composite key exactly as claim C1 words it:
`normalize(folder) ++ "/" ++ normalize(alias)`, or just `normalize(alias)`
when the folder is empty. -/
def strKeyClaim (s : Shortcut) : Str :=
  if normS s.folder = [] then normS s.«alias»
  else normS s.folder ++ ['/'] ++ normS s.«alias»

/-- No two stored records have equal composite-string keys (claim C1's
formulation). -/
def noDupStrKeysB : Store → Bool
  | [] => true
  | s :: rest => rest.all (fun t => !decide (strKeyClaim s = strKeyClaim t)) &&
      noDupStrKeysB rest

/-- One mutating operation of the kinds claim C1 quantifies over, with the
caller-supplied instant and fresh id made explicit. -/
inductive Op
  | create (now newId : Nat) (d : Draft)
  | update (now : Nat) (id : Nat) (p : Patch)
  | renameF (now : Nat) (oldName newName : Str)

/-- The store an operation leaves behind (for a failed `renameFolder` this is
the partially renamed store). -/
def applyOp (st : Store) : Op → Store
  | .create now newId d => (createShortcut now newId d st).2
  | .update now id p => (updateShortcut now id p st).2
  | .renameF now o n => (renameFolder now o n st).2

/-- Run a sequence of operations.  Every intermediate state of a run is
`execOps st prefix` for a prefix of the sequence, so a property of
`execOps st ops` for all `ops` covers "at no point". -/
def execOps (st : Store) (ops : List Op) : Store := ops.foldl applyOp st

end Invariant

section SpecSide

/-- The full alias as the claims word it: `folder ++ "/" ++ alias` (the
glossary's human-facing identity string), compared case-insensitively. -/
def fullAliasClaim (s : Shortcut) : Str := s.folder ++ ['/'] ++ s.«alias»

/-- Ascending case-insensitive full-alias order (claim side). -/
def specAliasOrderCmp (a b : Shortcut) : Int :=
  lexCmp (lowerStr (fullAliasClaim a)) (lowerStr (fullAliasClaim b))

/-- Tier 1 of `searchShortcuts`: exact alias or exact full-alias match. -/
def tier1B (q : Str) (s : Shortcut) : Bool := exactCondB q s

/-- Tier 2: partial match that did not qualify for Tier 1. -/
def tier2B (q : Str) (s : Shortcut) : Bool := !tier1B q s && partialCondB q s

/-- Tier 3: tag match that did not qualify for Tiers 1–2. -/
def tier3B (q : Str) (s : Shortcut) : Bool :=
  !tier1B q s && !partialCondB q s && tagCondB q s

/-- Tier 4: URL match that did not qualify for Tiers 1–3. -/
def tier4B (q : Str) (s : Shortcut) : Bool :=
  !tier1B q s && !partialCondB q s && !tagCondB q s && urlCondB q s

/-- Claim C4's reference ranking: the four tiers, each sorted by full alias
ascending, case-insensitively. -/
def specRankingC4 (query : Str) (st : Store) : List Shortcut :=
  let q := lowerStr (trimStr query)
  jsSort specAliasOrderCmp (st.filter (tier1B q)) ++
    jsSort specAliasOrderCmp (st.filter (tier2B q)) ++
    jsSort specAliasOrderCmp (st.filter (tier3B q)) ++
    jsSort specAliasOrderCmp (st.filter (tier4B q))

/-- Claim C5's reference result for a folder-listing query: the shortcuts
whose folder contains the text before the first `/` of the trimmed,
lower-cased query, ordered by alias ascending. -/
def specFolderListing (query : Str) (items : List Shortcut) : List Shortcut :=
  let folderPart := (lowerStr (trimStr query)).takeWhile (· ≠ '/')
  jsSort (fun a b => lexCmp (lowerStr a.«alias») (lowerStr b.«alias»))
    (items.filter fun s => containsSub (lowerStr s.folder) folderPart)

/-- Claim C9's reference comparator: access count descending, ties by
more-recent `lastAccessedAt`, remaining ties by full alias ascending. -/
def specFreqCmp (a b : Shortcut) : Int :=
  if a.accessCount ≠ b.accessCount then
    (b.accessCount : Int) - (a.accessCount : Int)
  else
    let la : Int := (a.lastAccessed.getD 0 : Nat)
    let lb : Int := (b.lastAccessed.getD 0 : Nat)
    if la ≠ lb then lb - la
    else specAliasOrderCmp a b

/-- Claim C9's reference ranking. -/
def specTopFrequent (n : Nat) (st : Store) : List Shortcut :=
  (jsSort specFreqCmp st).take n

/-- Claim C7's alias charset `[A-Za-z0-9-]`. -/
def claimAliasChar (c : Char) : Bool :=
  ('a' ≤ c && c ≤ 'z') || ('A' ≤ c && c ≤ 'Z') || ('0' ≤ c && c ≤ '9') || c = '-'

end SpecSide

section Fixtures

/-- Build a concrete shortcut record. -/
def mkS (id : Nat) (folder «alias» url : String) (tags : List String)
    (acc : Nat) (last : Option Nat) : Shortcut :=
  ⟨id, strOf url, strOf «alias», strOf folder, tags.map strOf, 0, 0, last, acc, false⟩

/-- A pre-existing record whose alias contains a `/` (nothing in the store's
shape forbids it; only records written through the validators are slash-free). -/
def c1w : Shortcut := mkS 0 (r"") (r"x/y") (r"https://e.com") [] 0 none

/-- A fully valid draft whose composite-string key collides with `c1w`'s. -/
def c1draft : Draft :=
  ⟨strOf (r"https://e.com"), strOf (r"y"), some (strOf (r"x")), .noTags⟩

def c1ops : List Op := [.create 0 1 c1draft]

def c2s1 : Shortcut := mkS 1 (r"a") (r"x") (r"https://e.com") [] 0 none
def c2s2 : Shortcut := mkS 2 (r"a") (r"y") (r"https://e.com") [] 0 none
def c2s3 : Shortcut := mkS 3 (r"b") (r"y") (r"https://e.com") [] 0 none

/-- Folder `a` holds `x` and `y`; folder `b` already holds `y`. -/
def c2st : Store := [c2s1, c2s2, c2s3]

def c3sWork : Shortcut := mkS 1 (r"work") (r"meet") (r"https://work.com/meet") [] 0 none

def c3st : Store := [c3sWork]

/-- The spec's example draft `{alias:"meet", folder:""}`. -/
def c3draft : Draft := ⟨strOf (r"https://x.com"), strOf (r"meet"), some [], .noTags⟩

def c4sRoot : Shortcut := mkS 2 (r"") (r"meet") (r"https://x.com") [] 0 none

/-- Record `work/meet` stored before the root `meet`: both are Tier-1 hits for
`"meet"`, and full-alias-ascending order would put the root one first. -/
def c4st : Store := [c3sWork, c4sRoot]

def c5net : Shortcut := mkS 1 (r"network") (r"a") (r"https://e.com") [] 0 none
def c5wk : Shortcut := mkS 2 (r"work") (r"z") (r"https://e.com") [] 0 none

/-- Both folders contain `"work"`; alias-ascending order is `a` then `z`. -/
def c5items : List Shortcut := [c5net, c5wk]

def c6s : Shortcut := mkS 2 (r"") (r"meet") (r"https://x.com") [] 0 none

/-- A valid draft whose alias contains `"meet"`, so creating it changes the
result set of the query `"meet"`. -/
def c6draft : Draft := ⟨strOf (r"https://b.com"), strOf (r"meetup"), none, .noTags⟩

def c6query : Str := strOf (r"meet")

/-- Twenty-one distinct, individually valid tags. -/
def tags21 : List Str := (List.range 21).map fun i => strOf ((r"a") ++ toString i)

def c9s1 : Shortcut := mkS 1 (r"") (r"b") (r"https://e.com") [] 5 (some 10)
def c9s2 : Shortcut := mkS 2 (r"") (r"a") (r"https://e.com") [] 5 (some 20)
def c9s3 : Shortcut := mkS 3 (r"") (r"c") (r"https://e.com") [] 7 none

/-- Records `c9s1` and `c9s2` tie on access count; `c9s2` is more recent and earlier
in alias order, yet later in store order. -/
def c9st : Store := [c9s1, c9s2, c9s3]

def c10fs : FolderStore := [⟨strOf (r"Team"), 0⟩]

def c10st : Store := [mkS 1 (r"work") (r"m") (r"https://e.com") [] 0 none]

end Fixtures

section ClosedTheorems

/-- C1 (counterexample): from the one-record store `[c1w]`, which has no
duplicate composite-string keys (and satisfies the full store invariant), the
single `createShortcut` of the fully valid draft `x/y` succeeds, after which
two live Shortcuts have equal composite-string keys
`normalize(folder) ++ "/" ++ normalize(alias)` — the code compares normalized
`(folder, alias)` pairs, not the composite strings the claim describes. -/
theorem c1_counterexample :
    noDupStrKeysB [c1w] = true ∧ storeInv [c1w] = true ∧
    (createShortcut 0 1 c1draft [c1w]).1.isOk = true ∧
    noDupStrKeysB (execOps [c1w] c1ops) = false := by decide

/-- C2 (failing input): renaming folder `a` to `b` over `c2st` fails with the
alias conflict on `y`, yet shortcut 1 — formerly in folder `a` — reports
folder `b` afterwards: the loop had already moved it before discovering the
conflict, so the rename is not atomic. -/
theorem c2_rename_not_atomic :
    c2s1 ∈ getShortcutsByFolder c2st (strOf (r"a")) ∧
    (renameFolder 5 (strOf (r"a")) (strOf (r"b")) c2st).1 =
      .error (.renameConflict (strOf (r"y"))) ∧
    ((renameFolder 5 (strOf (r"a")) (strOf (r"b")) c2st).2.find?
        fun s => decide (s.id = 1)).map Shortcut.folder =
      some (strOf (r"b")) := by decide

/-- C4 (counterexample): on the candidate set `[work/meet, meet]`, both Tier-1
hits for the query `"meet"`, `searchShortcuts` returns the store order
(`work/meet` first) while the claim's reference ranking sorts each tier by
full alias ascending (`/meet` before `work/meet`). -/
theorem c4_counterexample :
    searchShortcuts (strOf (r"meet")) c4st ≠
      specRankingC4 (strOf (r"meet")) c4st := by decide

/-- C5 (counterexample): for the folder-listing query `"work/"` over
`[network/a, work/z]`, the debounced-search pipeline puts the exact folder
match `work/z` (score 100) before `network/a` (score 50), while the claim
orders by alias ascending (`a` before `z`). -/
theorem c5_counterexample :
    dsFilteredItems (strOf (r"work/")) c5items ≠
      specFolderListing (strOf (r"work/")) c5items := by decide

/-- C6 (failing input): cache `"meet"` against a snapshot holding only `c6s`,
then create the valid shortcut `meetup` (which matches `"meet"`).  The next
`performSearch("meet")` still serves the cached `[c6s]`, though a fresh search
of the new snapshot returns more — no mutation invalidates the result cache
(`clearCache` has no caller), so the stale entry is served. -/
theorem c6_stale_cache_served :
    (performSearch c6query [] [c6s]).1 = [c6s] ∧
    (createShortcut 1 7 c6draft [c6s]).1.isOk = true ∧
    (performSearch c6query (performSearch c6query [] [c6s]).2
        (createShortcut 1 7 c6draft [c6s]).2).1 = [c6s] ∧
    searchShortcuts c6query (createShortcut 1 7 c6draft [c6s]).2 ≠ [c6s] := by
  decide

/-- C7 (counterexample): `"Meet"` is a 1–50 character string over
`[A-Za-z0-9-]` (already trimmed), yet `validateAlias` rejects it — the
source's charset is `/^[a-z0-9-]+$/`, lowercase only. -/
theorem c7_counterexample :
    trimStr (strOf (r"Meet")) = strOf (r"Meet") ∧
    (strOf (r"Meet")).length = 4 ∧
    (∀ c ∈ strOf (r"Meet"), claimAliasChar c = true) ∧
    validateAlias (strOf (r"Meet")) ≠ none := by decide

/-- C8 (failing input): twenty-one distinct, individually valid tags — well
under the claim's (and the repository requirement document's) limit of 50 —
are rejected with the too-many-tags error, while the first twenty are
accepted: the code's bound is 20. -/
theorem c8_tag_limit_is_20 :
    tags21.length = 21 ∧ (∀ t ∈ tags21, validateTag t = none) ∧
    validateTags (.arr tags21) = .error .tooManyTags ∧
    (validateTags (.arr (tags21.take 20))).isOk = true := by decide

/-- C9 (counterexample): `c9s1` and `c9s2` tie at access count 5;
`getFrequentShortcuts` keeps their store order (`c9s1` first) while the
claim's reference ranking breaks the tie by the more recent `lastAccessedAt`
(and then alias), putting `c9s2` first. -/
theorem c9_counterexample :
    getFrequentShortcuts 3 c9st ≠ specTopFrequent 3 c9st := by decide

/-- C10 (counterexample): a Folder record `Team` exists — a case variation of
the requested new name `TEAM` — yet `renameFolder("work", "TEAM")` succeeds:
`getFolderByName` is an exact-key (case-sensitive) `store.get`, so case
variations of the new name are not detected. -/
theorem c10_counterexample :
    (c10fs.any fun f => caseInsensitiveEqual f.name (strOf (r"TEAM"))) = true ∧
    (FolderService.renameFolder 7 (strOf (r"work")) (strOf (r"TEAM"))
        c10fs c10st).1.isOk = true := by decide

end ClosedTheorems

section StringLemmas

theorem dropWhile_dropWhile (p : α → Bool) (l : List α) :
    (l.dropWhile p).dropWhile p = l.dropWhile p := by
  induction l with
  | nil => rfl
  | cons x t ih =>
    rw [List.dropWhile_cons]
    by_cases h : p x = true
    · simp [h, ih]
    · simp [List.dropWhile_cons, h]

theorem dropWhile_eq_self_of_prefix (p : α → Bool) {l₁ l₂ : List α}
    (hp : l₁ <+: l₂) (h : l₂.dropWhile p = l₂) : l₁.dropWhile p = l₁ := by
  cases l₁ with
  | nil => rfl
  | cons x t =>
    obtain ⟨r, hr⟩ := hp
    subst hr
    rw [List.cons_append] at h
    have hx : p x = false := by
      by_contra hx
      rw [Bool.not_eq_false] at hx
      rw [List.dropWhile_cons, if_pos hx] at h
      have h1 : (List.dropWhile p (t ++ r)).length = (x :: (t ++ r)).length :=
        congrArg List.length h
      have hle : (List.dropWhile p (t ++ r)).length ≤ (t ++ r).length :=
        (@List.dropWhile_suffix _ (t ++ r) p).sublist.length_le
      rw [List.length_cons] at h1
      omega
    rw [List.dropWhile_cons, if_neg (by simp [hx])]

theorem trimStr_idem (s : Str) : trimStr (trimStr s) = trimStr s := by
  unfold trimStr
  set A := s.dropWhile isWsChar with hA
  set B := ((A.reverse.dropWhile isWsChar).reverse) with hB
  have hBA : B <+: A := by
    rw [← List.reverse_suffix, hB, List.reverse_reverse]
    exact List.dropWhile_suffix _
  have hAfix : A.dropWhile isWsChar = A := by
    rw [hA]; exact dropWhile_dropWhile _ _
  have hBfix : B.dropWhile isWsChar = B := dropWhile_eq_self_of_prefix _ hBA hAfix
  rw [hBfix, hB, List.reverse_reverse, dropWhile_dropWhile]

theorem normS_trimStr (s : Str) : normS (trimStr s) = normS s := by
  unfold normS
  rw [trimStr_idem]

theorem lexCmp_swap (a : Str) : ∀ b, lexCmp a b = -lexCmp b a := by
  induction a with
  | nil => intro b; cases b <;> rfl
  | cons x xs ih =>
    intro b
    cases b with
    | nil => rfl
    | cons y ys =>
      by_cases h1 : x < y
      · have h2 : ¬ y < x := lt_asymm h1
        simp [lexCmp, h1, h2]
      · by_cases h2 : y < x
        · simp [lexCmp, h1, h2]
        · simp [lexCmp, h1, h2, ih ys]

theorem lexCmp_le_total (a b : Str) : lexCmp a b ≤ 0 ∨ lexCmp b a ≤ 0 := by
  rw [lexCmp_swap]
  omega

theorem lexCmp_nil_le (c : Str) : lexCmp [] c ≤ 0 := by
  cases c <;> simp [lexCmp]

theorem lexCmp_le_trans :
    ∀ (a b c : Str), lexCmp a b ≤ 0 → lexCmp b c ≤ 0 → lexCmp a c ≤ 0 := by
  intro a
  induction a with
  | nil => intro b c _ _; exact lexCmp_nil_le c
  | cons x xs ih =>
    intro b c h1 h2
    cases b with
    | nil => simp [lexCmp] at h1
    | cons y ys =>
      cases c with
      | nil => simp [lexCmp] at h2
      | cons z zs =>
        simp only [lexCmp] at h1 h2 ⊢
        by_cases hxy : x < y
        · have hyz : y ≤ z := by
            by_contra hzy
            push_neg at hzy
            have : ¬ y < z := lt_asymm hzy
            simp [this, hzy] at h2
          have hxz : x < z := lt_of_lt_of_le hxy hyz
          simp [hxz]
        · have hyx : ¬ y < x := by
            intro hyx
            simp [hxy, hyx] at h1
          have hxy2 : x = y := le_antisymm (le_of_not_lt hyx) (le_of_not_lt hxy)
          subst hxy2
          by_cases hxz : x < z
          · simp [hxz]
          · have hzx : ¬ z < x := by
              intro hzx
              simp [hxz, hzx] at h2
            have hxz2 : x = z := le_antisymm (le_of_not_lt hzx) (le_of_not_lt hxz)
            subst hxz2
            simp [lt_irrefl] at h1 h2 ⊢
            exact ih ys zs h1 h2

end StringLemmas

section SortLemmas

theorem jsSort_perm (c : α → α → Int) (l : List α) : (jsSort c l).Perm l :=
  List.perm_insertionSort _ l

theorem jsSort_pairwise (c : α → α → Int)
    (htot : ∀ a b, c a b ≤ 0 ∨ c b a ≤ 0)
    (htrans : ∀ a b d, c a b ≤ 0 → c b d ≤ 0 → c a d ≤ 0) (l : List α) :
    (jsSort c l).Pairwise (fun a b => c a b ≤ 0) := by
  haveI : IsTotal α (fun a b => c a b ≤ 0) := ⟨htot⟩
  haveI : IsTrans α (fun a b => c a b ≤ 0) := ⟨fun a b d => htrans a b d⟩
  exact List.sorted_insertionSort _ l

end SortLemmas

section C7Theorems

/-- C7 (amended): `validateAlias` succeeds if and only if its trimmed input is
nonempty, at most 50 characters, and drawn from the lowercase charset
`[a-z0-9-]` — equivalently, it fails iff the trimmed input is empty, longer
than 50 characters, or contains a character outside `[a-z0-9-]`; uppercase
letters are rejected (the "shorter than 1" case of the claim coincides with
emptiness and the claim's `[A-Za-z0-9-]` charset shrinks to `[a-z0-9-]`). -/
theorem c7_amended (s : Str) :
    validateAlias s = none ↔
      trimStr s ≠ [] ∧ (trimStr s).length ≤ 50 ∧
        ∀ c ∈ trimStr s, isAliasChar c = true := by
  simp only [validateAlias]
  by_cases h0 : s = []
  · subst h0
    simp [trimStr]
  · rw [if_neg h0]
    by_cases h1 : trimStr s = []
    · simp [h1]
    · rw [if_neg h1]
      have h2 : ¬ (trimStr s).length < 1 := by
        have := List.length_pos.mpr h1
        omega
      rw [if_neg h2]
      by_cases h3 : (trimStr s).length > 50
      · rw [if_pos h3]
        constructor
        · intro h
          exact absurd h (by simp)
        · rintro ⟨_, hlen, _⟩
          omega
      · rw [if_neg h3]
        by_cases h4 : (trimStr s).all isAliasChar = true
        · rw [if_neg (by simp [h4])]
          exact ⟨fun _ => ⟨h1, by omega, List.all_eq_true.mp h4⟩, fun _ => rfl⟩
        · rw [if_pos (by simp [h4])]
          constructor
          · intro h
            exact absurd h (by simp)
          · rintro ⟨_, _, hall⟩
            exact absurd (List.all_eq_true.mpr hall) h4

end C7Theorems

section C9Theorems

/-- C9 (amended): `getFrequentShortcuts n` returns the first
`min n (number of candidates)` entries of the stable descending sort of the
candidate list by `accessCount` alone: together with the dropped remainder it
is a permutation of the candidates that is sorted by access count descending
— so every returned shortcut has an access count at least that of every
omitted one — but ties keep store order; neither `lastAccessedAt` nor the
full alias ever breaks a tie. -/
theorem c9_amended (n : Nat) (st : Store) :
    (getFrequentShortcuts n st ++ (jsSort freqCmp st).drop n).Perm st ∧
    (getFrequentShortcuts n st ++ (jsSort freqCmp st).drop n).Pairwise
      (fun a b => b.accessCount ≤ a.accessCount) ∧
    (getFrequentShortcuts n st).length = min n st.length := by
  refine ⟨?_, ?_, ?_⟩
  · rw [getFrequentShortcuts, List.take_append_drop]
    exact jsSort_perm _ _
  · rw [getFrequentShortcuts, List.take_append_drop]
    refine (jsSort_pairwise freqCmp ?_ ?_ st).imp ?_
    · intro a b
      unfold freqCmp
      omega
    · intro a b d
      unfold freqCmp
      omega
    · intro a b h
      unfold freqCmp at h
      omega
  · rw [getFrequentShortcuts, List.length_take, (jsSort_perm freqCmp st).length_eq]

end C9Theorems

section C4Theorems

theorem searchBuckets_eq (q : Str) (st : Store) :
    searchBuckets q st =
      (st.filter (tier1B q), st.filter (tier2B q), st.filter (tier3B q),
        st.filter (tier4B q)) := by
  induction st with
  | nil => rfl
  | cons s rest ih =>
    simp only [searchBuckets, ih]
    by_cases h1 : exactCondB q s = true
    · simp [List.filter_cons, tier1B, tier2B, tier3B, tier4B, h1]
    · by_cases h2 : partialCondB q s = true
      · simp [List.filter_cons, tier1B, tier2B, tier3B, tier4B, h1, h2]
      · by_cases h3 : tagCondB q s = true
        · simp [List.filter_cons, tier1B, tier2B, tier3B, tier4B, h1, h2, h3]
        · by_cases h4 : urlCondB q s = true
          · simp [List.filter_cons, tier1B, tier2B, tier3B, tier4B, h1, h2, h3, h4]
          · simp [List.filter_cons, tier1B, tier2B, tier3B, tier4B, h1, h2, h3, h4]

/-- C4 (amended): for every non-empty trimmed query (no `/` required by the
code, but the claim's scope is kept), `searchShortcuts` is the concatenation
of the four tiers — exact, partial, tag, URL — where each tier keeps the
candidates in *store order* (no full-alias sorting happens inside a tier);
the tiers are mutually exclusive (first match wins), and no candidate appears
more often in the result than in the candidate list. -/
theorem c4_amended (q : Str) (st : Store) (hq : trimStr q ≠ [])
    (hslash : ('/') ∉ q) :
    searchShortcuts q st =
        st.filter (tier1B (lowerStr (trimStr q))) ++
        st.filter (tier2B (lowerStr (trimStr q))) ++
        st.filter (tier3B (lowerStr (trimStr q))) ++
        st.filter (tier4B (lowerStr (trimStr q))) ∧
      (∀ s : Shortcut,
        (tier1B (lowerStr (trimStr q)) s).toNat +
          (tier2B (lowerStr (trimStr q)) s).toNat +
          (tier3B (lowerStr (trimStr q)) s).toNat +
          (tier4B (lowerStr (trimStr q)) s).toNat ≤ 1) ∧
      ∀ s : Shortcut, (searchShortcuts q st).count s ≤ st.count s := by
  have hdec : searchShortcuts q st =
      st.filter (tier1B (lowerStr (trimStr q))) ++
      st.filter (tier2B (lowerStr (trimStr q))) ++
      st.filter (tier3B (lowerStr (trimStr q))) ++
      st.filter (tier4B (lowerStr (trimStr q))) := by
    unfold searchShortcuts
    rw [if_neg hq]
    simp only [searchBuckets_eq]
  have hzero : ∀ (p : Shortcut → Bool) (s : Shortcut), p s = false →
      (st.filter p).count s = 0 := by
    intro p s hp
    rw [List.count_eq_zero]
    intro hmem
    rw [List.mem_filter] at hmem
    rw [hmem.2] at hp
    cases hp
  have hle : ∀ (p : Shortcut → Bool) (s : Shortcut),
      (st.filter p).count s ≤ st.count s :=
    fun p s => (List.filter_sublist st).count_le s
  refine ⟨hdec, ?_, ?_⟩
  · intro s
    cases h1 : exactCondB (lowerStr (trimStr q)) s <;>
      cases h2 : partialCondB (lowerStr (trimStr q)) s <;>
      cases h3 : tagCondB (lowerStr (trimStr q)) s <;>
      cases h4 : urlCondB (lowerStr (trimStr q)) s <;>
      simp [tier1B, tier2B, tier3B, tier4B, h1, h2, h3, h4]
  · intro s
    rw [hdec, List.count_append, List.count_append, List.count_append]
    cases h1 : exactCondB (lowerStr (trimStr q)) s <;>
      cases h2 : partialCondB (lowerStr (trimStr q)) s <;>
      cases h3 : tagCondB (lowerStr (trimStr q)) s <;>
      cases h4 : urlCondB (lowerStr (trimStr q)) s <;>
      [skip; skip; skip; skip; skip; skip; skip; skip; skip; skip; skip; skip;
        skip; skip; skip; skip] <;>
    · have z1 := hzero (tier1B (lowerStr (trimStr q))) s
      have z2 := hzero (tier2B (lowerStr (trimStr q))) s
      have z3 := hzero (tier3B (lowerStr (trimStr q))) s
      have z4 := hzero (tier4B (lowerStr (trimStr q))) s
      have l1 := hle (tier1B (lowerStr (trimStr q))) s
      have l2 := hle (tier2B (lowerStr (trimStr q))) s
      have l3 := hle (tier3B (lowerStr (trimStr q))) s
      have l4 := hle (tier4B (lowerStr (trimStr q))) s
      simp only [tier1B, tier2B, tier3B, tier4B, h1, h2, h3, h4] at z1 z2 z3 z4
      simp at z1 z2 z3 z4
      omega

end C4Theorems

section C4Witness

/-- Witness for `c4_amended` at the spec's own two-shortcut example and the
query `"meet"`. -/
theorem c4_amended_witness :
    trimStr (strOf (r"meet")) ≠ [] ∧ ('/') ∉ strOf (r"meet") ∧
      (searchShortcuts (strOf (r"meet")) c4st =
          c4st.filter (tier1B (lowerStr (trimStr (strOf (r"meet"))))) ++
          c4st.filter (tier2B (lowerStr (trimStr (strOf (r"meet"))))) ++
          c4st.filter (tier3B (lowerStr (trimStr (strOf (r"meet"))))) ++
          c4st.filter (tier4B (lowerStr (trimStr (strOf (r"meet"))))) ∧
        (∀ s : Shortcut,
          (tier1B (lowerStr (trimStr (strOf (r"meet")))) s).toNat +
            (tier2B (lowerStr (trimStr (strOf (r"meet")))) s).toNat +
            (tier3B (lowerStr (trimStr (strOf (r"meet")))) s).toNat +
            (tier4B (lowerStr (trimStr (strOf (r"meet")))) s).toNat ≤ 1) ∧
        ∀ s : Shortcut,
          (searchShortcuts (strOf (r"meet")) c4st).count s ≤ c4st.count s) :=
  ⟨by decide, by decide, c4_amended (strOf (r"meet")) c4st (by decide) (by decide)⟩

end C4Witness

section C5Theorems

theorem dsCmp_le_total (q : Str) (a b : Shortcut) :
    dsCmp q a b ≤ 0 ∨ dsCmp q b a ≤ 0 := by
  simp only [dsCmp]
  split_ifs <;> first | omega | exact lexCmp_le_total _ _

theorem dsCmp_le_trans (q : Str) (a b d : Shortcut) :
    dsCmp q a b ≤ 0 → dsCmp q b d ≤ 0 → dsCmp q a d ≤ 0 := by
  simp only [dsCmp]
  split_ifs <;> intro h1 h2 <;>
    first | omega | exact lexCmp_le_trans _ _ _ h1 h2

theorem dsCmp_le_elim (q : Str) (a b : Shortcut) (hq : trimStr q ≠ [])
    (h : dsCmp q a b ≤ 0) :
    dsScore b (lowerStr q) < dsScore a (lowerStr q) ∨
      (dsScore a (lowerStr q) = dsScore b (lowerStr q) ∧
        lexCmp (lowerStr a.«alias») (lowerStr b.«alias») ≤ 0) := by
  simp only [dsCmp, if_neg hq] at h
  by_cases hs : dsScore a (lowerStr q) = dsScore b (lowerStr q)
  · rw [if_neg (by simp [hs])] at h
    exact Or.inr ⟨hs, h⟩
  · rw [if_pos hs] at h
    omega

theorem dsMatches_folderListing (q : Str) (s : Shortcut) (hq : trimStr q ≠ [])
    (hsl : (lowerStr q).contains '/' = true)
    (hap : seg2 '/' (lowerStr q) = []) :
    dsMatches s q =
      containsSub (lowerStr s.folder) ((lowerStr q).takeWhile (· ≠ '/')) := by
  simp only [dsMatches]
  rw [if_neg hq, if_pos hsl, if_pos hap]

/-- C5 (amended): for every query whose lower-cased form has an empty second
`/`-segment (the code's folder-listing condition; a query ending in its only
`/` is the common case) and a nonempty trim, the debounced-search pipeline
returns exactly the shortcuts whose folder contains the text before the first
`/` — each exactly as often as it occurs among the candidates — ordered by
match score descending (an exact folder match scores 100 and precedes every
proper-substring folder match at 50), with ties broken by alias ascending;
alias-ascending order holds only within a score group, not globally. -/
theorem c5_amended (q : Str) (items : List Shortcut) (hq : trimStr q ≠ [])
    (hsl : (lowerStr q).contains '/' = true)
    (hap : seg2 '/' (lowerStr q) = []) :
    (dsFilteredItems q items).Perm
        (items.filter fun s =>
          containsSub (lowerStr s.folder) ((lowerStr q).takeWhile (· ≠ '/'))) ∧
      (dsFilteredItems q items).Pairwise (fun a b =>
        dsScore b (lowerStr q) < dsScore a (lowerStr q) ∨
          (dsScore a (lowerStr q) = dsScore b (lowerStr q) ∧
            lexCmp (lowerStr a.«alias») (lowerStr b.«alias») ≤ 0)) ∧
      ∀ s : Shortcut, (dsFilteredItems q items).count s =
        (items.filter fun s =>
          containsSub (lowerStr s.folder) ((lowerStr q).takeWhile (· ≠ '/'))).count s := by
  have hfil : items.filter (dsMatches · q) =
      items.filter fun s =>
        containsSub (lowerStr s.folder) ((lowerStr q).takeWhile (· ≠ '/')) :=
    List.filter_congr fun x _ => dsMatches_folderListing q x hq hsl hap
  have hperm : (dsFilteredItems q items).Perm
      (items.filter fun s =>
        containsSub (lowerStr s.folder) ((lowerStr q).takeWhile (· ≠ '/'))) := by
    unfold dsFilteredItems
    rw [if_neg hq, hfil]
    exact jsSort_perm _ _
  refine ⟨hperm, ?_, fun s => hperm.count_eq s⟩
  unfold dsFilteredItems
  rw [if_neg hq]
  exact (jsSort_pairwise (dsCmp q) (dsCmp_le_total q)
    (fun a b d => dsCmp_le_trans q a b d) _).imp
      (fun h => dsCmp_le_elim q _ _ hq h)

/-- Witness for `c5_amended` at the folder-listing query `"work/"` over the
two-folder candidate list. -/
theorem c5_amended_witness :
    trimStr (strOf (r"work/")) ≠ [] ∧
      (lowerStr (strOf (r"work/"))).contains '/' = true ∧
      seg2 '/' (lowerStr (strOf (r"work/"))) = [] ∧
      ((dsFilteredItems (strOf (r"work/")) c5items).Perm
        (c5items.filter fun s =>
          containsSub (lowerStr s.folder)
            ((lowerStr (strOf (r"work/"))).takeWhile (· ≠ '/'))) ∧
      (dsFilteredItems (strOf (r"work/")) c5items).Pairwise (fun a b =>
        dsScore b (lowerStr (strOf (r"work/"))) <
            dsScore a (lowerStr (strOf (r"work/"))) ∨
          (dsScore a (lowerStr (strOf (r"work/"))) =
              dsScore b (lowerStr (strOf (r"work/"))) ∧
            lexCmp (lowerStr a.«alias») (lowerStr b.«alias») ≤ 0)) ∧
      ∀ s : Shortcut, (dsFilteredItems (strOf (r"work/")) c5items).count s =
        (c5items.filter fun s =>
          containsSub (lowerStr s.folder)
            ((lowerStr (strOf (r"work/"))).takeWhile (· ≠ '/'))).count s) :=
  ⟨by decide, by decide, by decide,
    c5_amended (strOf (r"work/")) c5items (by decide) (by decide) (by decide)⟩

end C5Theorems

section C3Theorems

/-- C3 (confirmed): for every draft whose `url`, `alias`, `folder` and `tags`
are individually valid (and a fresh id, as `uuidv4` guarantees),
`createShortcut` succeeds — appending the new trimmed record — exactly when no
live Shortcut has a case-insensitively equal normalized `(folder, alias)`
composite key, and otherwise fails with the duplicate-alias error naming the
conflicting full alias.  In particular two drafts with the same alias in
different folders both succeed (see the witness). -/
theorem c3_create_checks_composite_key (now newId : Nat) (d : Draft)
    (st : Store)
    (hurl : validateUrl d.url = none) (halias : validateAlias d.«alias» = none)
    (hfolder : validateFolderName d.folder = none)
    (htags : (validateTags d.tags).isOk = true)
    (hfresh : ∀ s ∈ st, s.id ≠ newId) :
    ((∀ s ∈ st, ¬(normS s.folder = normS (d.folder.getD []) ∧
        normS s.«alias» = normS d.«alias»)) →
      ∃ u, createShortcut now newId d st = (.ok u, st ++ [u]) ∧
        u.id = newId ∧ u.url = trimStr d.url ∧ u.«alias» = trimStr d.«alias» ∧
        u.folder = draftFolderStored d.folder) ∧
    ∀ s ∈ st, normS s.folder = normS (d.folder.getD []) →
      normS s.«alias» = normS d.«alias» →
      createShortcut now newId d st =
        (.error (.duplicateAlias (rawFullAlias (d.folder.getD []) d.«alias»)),
          st) := by
  have hv : (validateDraft d).valid = true := by
    simp [validateDraft, validateShortcutFields, hurl, halias, hfolder, htags]
  constructor
  · intro hnone
    have hfind : getShortcutByFullAlias st (d.folder.getD []) d.«alias» = none := by
      rw [getShortcutByFullAlias, List.find?_eq_none]
      intro x hx hcontra
      rw [Bool.and_eq_true, decide_eq_true_eq, decide_eq_true_eq] at hcontra
      exact hnone x hx hcontra
    have hany : st.any (fun x => decide (x.id = newId)) = false := by
      rw [List.any_eq_false]
      intro x hx
      simp [hfresh x hx]
    refine ⟨⟨newId, trimStr d.url, trimStr d.«alias», draftFolderStored d.folder,
      (validateDraft d).tags, now, now, none, 0, false⟩, ?_, rfl, rfl, rfl, rfl⟩
    simp [createShortcut, hv, hfind, hany, draftFolderStored]
  · intro s hs h1 h2
    have hfindSome : (getShortcutByFullAlias st (d.folder.getD [])
        d.«alias»).isSome = true := by
      rw [getShortcutByFullAlias, List.find?_isSome]
      exact ⟨s, hs, by simp [h1, h2]⟩
    obtain ⟨w, hw⟩ := Option.isSome_iff_exists.mp hfindSome
    simp [createShortcut, hv, hw]

/-- Witness for `c3_create_checks_composite_key`: against a store already
holding `work/meet`, the draft `{alias:"meet", folder:""}` has a distinct
composite key and is created — the spec's "both succeed" example. -/
theorem c3_witness :
    (∀ s ∈ c3st, ¬(normS s.folder = normS (c3draft.folder.getD []) ∧
        normS s.«alias» = normS c3draft.«alias»)) ∧
    ∃ u, createShortcut 0 2 c3draft c3st = (.ok u, c3st ++ [u]) ∧
      u.id = 2 ∧ u.url = trimStr c3draft.url ∧
      u.«alias» = trimStr c3draft.«alias» ∧
      u.folder = draftFolderStored c3draft.folder :=
  ⟨by decide,
    (c3_create_checks_composite_key 0 2 c3draft c3st (by decide) (by decide)
      (by decide) (by decide) (by decide)).1 (by decide)⟩

end C3Theorems

section C10Theorems

/-- C10 (amended): the folder service's `renameFolder(oldName, newName)` fails
with the already-exists error — mutating nothing — whenever a Folder record
whose name is *exactly* the trimmed `newName` exists, the two names are not
case-insensitively equal, and `newName` is valid and nonempty after trimming;
so two non-empty folders are never merged by rename.  (Case variations of
`newName` are *not* detected — the lookup is the store's exact, case-sensitive
key — and a case-insensitively-equal pair of names is a no-op instead; see the
counterexample.) -/
theorem c10_amended (now : Nat) (oldName newName : Str) (fs : FolderStore)
    (st : Store)
    (hval : validateFolderName (some newName) = none)
    (hne : caseInsensitiveEqual (trimStr oldName) (trimStr newName) = false)
    (hnempty : trimStr newName ≠ [])
    (hex : ∃ f ∈ fs, f.name = trimStr newName) :
    FolderService.renameFolder now oldName newName fs st =
      (.error (.alreadyExists (trimStr newName)), fs, st) := by
  have hfind : (FolderService.getFolderByName fs (trimStr newName)).isSome = true := by
    rw [FolderService.getFolderByName, if_neg hnempty, List.find?_isSome]
    obtain ⟨f, hf, hname⟩ := hex
    exact ⟨f, hf, by simp [hname, trimStr_idem]⟩
  obtain ⟨w, hw⟩ := Option.isSome_iff_exists.mp hfind
  simp [FolderService.renameFolder, hval, hne, hw]

/-- Witness for `c10_amended`: renaming `work` to the exact existing folder
name `Team` fails with the already-exists error and leaves both stores
untouched. -/
theorem c10_amended_witness :
    validateFolderName (some (strOf (r"Team"))) = none ∧
    caseInsensitiveEqual (trimStr (strOf (r"work")))
      (trimStr (strOf (r"Team"))) = false ∧
    FolderService.renameFolder 7 (strOf (r"work")) (strOf (r"Team")) c10fs c10st =
      (.error (.alreadyExists (trimStr (strOf (r"Team")))), c10fs, c10st) :=
  ⟨by decide, by decide,
    c10_amended 7 (strOf (r"work")) (strOf (r"Team")) c10fs c10st (by decide)
      (by decide) (by decide) (by decide)⟩

end C10Theorems

section C1Lemmas

theorem keyEq_symm {a b : Shortcut} (h : keyEq a b) : keyEq b a :=
  ⟨h.1.symm, h.2.symm⟩

theorem keyEq_trans {a b c : Shortcut} (h1 : keyEq a b) (h2 : keyEq b c) :
    keyEq a c :=
  ⟨h1.1.trans h2.1, h1.2.trans h2.2⟩

theorem noDupIdsB_iff (st : Store) :
    noDupIdsB st = true ↔ st.Pairwise fun a b => a.id ≠ b.id := by
  induction st with
  | nil => simp [noDupIdsB]
  | cons s rest ih =>
    rw [noDupIdsB, Bool.and_eq_true, List.pairwise_cons, ih, List.all_eq_true]
    constructor
    · rintro ⟨h1, h2⟩
      exact ⟨fun t ht => by simpa using h1 t ht, h2⟩
    · rintro ⟨h1, h2⟩
      exact ⟨fun t ht => by simpa using h1 t ht, h2⟩

theorem noDupKeysB_iff (st : Store) :
    noDupKeysB st = true ↔ st.Pairwise fun a b => ¬ keyEq a b := by
  induction st with
  | nil => simp [noDupKeysB]
  | cons s rest ih =>
    rw [noDupKeysB, Bool.and_eq_true, List.pairwise_cons, ih, List.all_eq_true]
    constructor
    · rintro ⟨h1, h2⟩
      exact ⟨fun t ht => by simpa using h1 t ht, h2⟩
    · rintro ⟨h1, h2⟩
      exact ⟨fun t ht => by simpa using h1 t ht, h2⟩

/-- The combined pairwise relation of the store invariant. -/
def invRel (a b : Shortcut) : Prop := a.id ≠ b.id ∧ ¬ keyEq a b

theorem invRel_symmetric : Symmetric invRel := by
  intro a b h
  exact ⟨h.1.symm, fun hk => h.2 (keyEq_symm hk)⟩

theorem storeInv_iff (st : Store) :
    storeInv st = true ↔ st.Pairwise invRel := by
  rw [storeInv, Bool.and_eq_true, noDupIdsB_iff, noDupKeysB_iff]
  constructor
  · rintro ⟨h1, h2⟩
    exact h1.and h2
  · intro h
    exact ⟨h.imp fun hh => hh.1, h.imp fun hh => hh.2⟩

theorem getByFullAlias_none (st : Store) (f a : Str)
    (h : getShortcutByFullAlias st f a = none) :
    ∀ s ∈ st, ¬(normS s.folder = normS f ∧ normS s.«alias» = normS a) := by
  rw [getShortcutByFullAlias, List.find?_eq_none] at h
  intro s hs hcontra
  have := h s hs
  rw [Bool.and_eq_true, decide_eq_true_eq, decide_eq_true_eq] at this
  exact this hcontra

theorem getByFullAlias_some (st : Store) (f a : Str) (w : Shortcut)
    (h : getShortcutByFullAlias st f a = some w) :
    w ∈ st ∧ normS w.folder = normS f ∧ normS w.«alias» = normS a := by
  have hmem := List.mem_of_find?_eq_some h
  have hp := List.find?_some h
  rw [Bool.and_eq_true, decide_eq_true_eq, decide_eq_true_eq] at hp
  exact ⟨hmem, hp⟩

theorem draftFolderStored_eq (f : Option Str) :
    draftFolderStored f = trimStr (f.getD []) := by
  cases f with
  | none => rfl
  | some s =>
    rw [draftFolderStored, Option.getD_some]
    by_cases h : s = []
    · subst h
      rw [if_neg (by simp)]
      rfl
    · rw [if_pos h]

/-- Replacing (by `store.put`) the record with key `id` by a record `u` with
the same id whose key collides with no *other* record preserves the store
invariant. -/
theorem storeInv_mapReplace (st : Store) (id : Nat) (u : Shortcut)
    (hu : u.id = id)
    (hsafe : ∀ b ∈ st, b.id ≠ id → ¬ keyEq u b)
    (h : storeInv st = true) :
    storeInv (st.map fun s => if s.id = id then u else s) = true := by
  rw [storeInv_iff] at h ⊢
  rw [List.pairwise_map]
  refine h.imp_of_mem ?_
  intro a b ha hb hab
  by_cases haid : a.id = id <;> by_cases hbid : b.id = id
  · exact absurd (haid.trans hbid.symm) hab.1
  · rw [if_pos haid, if_neg hbid]
    exact ⟨by rw [hu]; exact fun hh => hbid hh.symm, hsafe b hb hbid⟩
  · rw [if_neg haid, if_pos hbid]
    refine ⟨by rw [hu]; exact haid, fun hk => hsafe a ha haid (keyEq_symm hk)⟩
  · rw [if_neg haid, if_neg hbid]
    exact hab

end C1Lemmas

section C1CreateLemma

theorem createShortcut_inv (now newId : Nat) (d : Draft) (st : Store)
    (h : storeInv st = true) :
    storeInv (createShortcut now newId d st).2 = true := by
  simp only [createShortcut]
  split
  · exact h
  · split
    · exact h
    · next hnone =>
      split
      · exact h
      · next hany =>
        rw [storeInv_iff] at h ⊢
        rw [List.pairwise_append]
        refine ⟨h, by simp, ?_⟩
        intro a ha b hb
        rw [List.mem_singleton] at hb
        subst hb
        constructor
        · intro hid
          apply hany
          rw [List.any_eq_true]
          exact ⟨a, ha, by simp [hid]⟩
        · intro hk
          apply getByFullAlias_none st _ _ hnone a ha
          have h1 : normS a.folder = normS (draftFolderStored d.folder) := hk.1
          have h2 : normS a.«alias» = normS (trimStr d.«alias») := hk.2
          rw [draftFolderStored_eq, normS_trimStr] at h1
          rw [normS_trimStr] at h2
          exact ⟨h1, h2⟩

end C1CreateLemma

section C1UpdateLemma

theorem validFields_alias (url «alias» : Str) (folder : Option Str)
    (tags : TagsInput)
    (h : (validateShortcutFields url «alias» folder tags).valid = true) :
    validateAlias «alias» = none := by
  simp only [validateShortcutFields] at h
  rw [Bool.and_eq_true, Bool.and_eq_true, Bool.and_eq_true] at h
  exact Option.isNone_iff_eq_none.mp h.1.1.2

theorem updateShortcut_inv (now id : Nat) (p : Patch) (st : Store)
    (h : storeInv st = true) :
    storeInv (updateShortcut now id p st).2 = true := by
  simp only [updateShortcut]
  split
  · exact h
  · next ex hfind =>
    have hexmem : ex ∈ st := List.mem_of_find?_eq_some hfind
    have hexid : ex.id = id := by
      have := List.find?_some hfind
      simpa using this
    split
    · exact h
    · next hvalid =>
      have hv2 : (validateShortcutFields (p.url.getD ex.url)
          (p.«alias».getD ex.«alias») (some (p.folder.getD ex.folder))
          (match p.tags with | some ti => ti | none => .arr ex.tags)).valid =
            true := by
        simpa using hvalid
      split
      · -- the identity fields were patched: the uniqueness check ran
        split
        · next other hga =>
          split
          · exact h
          · next hotherid =>
            have hoid : other.id = id := not_not.mp hotherid
            refine storeInv_mapReplace st id _ hexid ?_ h
            intro b hb hbid hk
            have hw := getByFullAlias_some st _ _ other hga
            have h1 : normS (p.folder.getD ex.folder) = normS b.folder := hk.1
            have h2 : normS (p.«alias».getD ex.«alias») = normS b.«alias» := hk.2
            have hob : keyEq other b := ⟨hw.2.1.trans h1, hw.2.2.trans h2⟩
            have hne : other ≠ b := fun hh => hbid (hh ▸ hoid)
            exact ((List.Pairwise.forall invRel_symmetric
              ((storeInv_iff st).mp h)) hw.1 hb hne).2 hob
        · next hga =>
          refine storeInv_mapReplace st id _ hexid ?_ h
          intro b hb hbid hk
          exact getByFullAlias_none st _ _ hga b hb ⟨hk.1.symm, hk.2.symm⟩
      · -- no identity field patched: the key is unchanged
        next hip =>
        refine storeInv_mapReplace st id _ hexid ?_ h
        intro b hb hbid hk
        have hfol : p.folder = none := by
          cases hpf : p.folder with
          | none => rfl
          | some f => exact absurd (by simp [hpf]) hip
        have hAliasNone : validateAlias (p.«alias».getD ex.«alias») = none :=
          validFields_alias _ _ _ _ hv2
        have hali : p.«alias».getD ex.«alias» = ex.«alias» := by
          cases hpa : p.«alias» with
          | none => rfl
          | some a =>
            have ha0 : a = [] := by
              by_contra hne
              exact absurd (by simp [hpa, hne]) hip
            subst ha0
            rw [hpa, Option.getD_some] at hAliasNone
            simp [validateAlias] at hAliasNone
        have h1 : normS (p.folder.getD ex.folder) = normS b.folder := hk.1
        have h2 : normS (p.«alias».getD ex.«alias») = normS b.«alias» := hk.2
        rw [hfol, Option.getD_none] at h1
        rw [hali] at h2
        have hkeb : keyEq ex b := ⟨h1, h2⟩
        have hne : ex ≠ b := fun hh => hbid (hh ▸ hexid)
        exact ((List.Pairwise.forall invRel_symmetric
          ((storeInv_iff st).mp h)) hexmem hb hne).2 hkeb

end C1UpdateLemma

section C1MainTheorems

theorem renameLoop_inv (now : Nat) (newName : Str) :
    ∀ (l : List Shortcut) (n : Nat) (st : Store), storeInv st = true →
      storeInv (renameLoop now newName l n st).2 = true := by
  intro l
  induction l with
  | nil =>
    intro n st h
    simpa [renameLoop] using h
  | cons s rest ih =>
    intro n st h
    have hinv2 : storeInv (updateShortcut now s.id (folderPatch newName) st).2 =
        true := updateShortcut_inv now s.id (folderPatch newName) st h
    rw [renameLoop]
    cases hga : getShortcutByFullAlias st newName s.«alias» with
    | some other =>
      dsimp only
      by_cases hoid : other.id ≠ s.id
      · rw [if_pos hoid]
        exact h
      · rw [if_neg hoid]
        cases hupd : updateShortcut now s.id (folderPatch newName) st with
        | mk res st2 =>
          rw [hupd] at hinv2
          cases res with
          | error e => exact hinv2
          | ok w => exact ih (n + 1) st2 hinv2
    | none =>
      dsimp only
      cases hupd : updateShortcut now s.id (folderPatch newName) st with
      | mk res st2 =>
        rw [hupd] at hinv2
        cases res with
        | error e => exact hinv2
        | ok w => exact ih (n + 1) st2 hinv2

theorem renameFolder_inv (now : Nat) (oldName newName : Str) (st : Store)
    (h : storeInv st = true) :
    storeInv (renameFolder now oldName newName st).2 = true := by
  rw [renameFolder]
  split
  · exact h
  · exact renameLoop_inv now newName _ 0 st h

theorem applyOp_inv (st : Store) (op : Op) (h : storeInv st = true) :
    storeInv (applyOp st op) = true := by
  cases op with
  | create now newId d => exact createShortcut_inv now newId d st h
  | update now id p => exact updateShortcut_inv now id p st h
  | renameF now o n => exact renameFolder_inv now o n st h

/-- C1 (amended): starting from any store with pairwise distinct ids (the
object store's structural key guarantee) in which no two live Shortcuts have
case-insensitively equal normalized `(folder, alias)` pairs, every sequence of
`createShortcut` / `updateShortcut` / `renameFolder` operations — including
failed ones, and the partially applied stores a failed rename leaves behind —
preserves that uniqueness; since every intermediate state is `execOps` of a
prefix, no two live Shortcuts ever share a key.  The pair `(folder, alias)`
coincides with the claim's composite string `normalize(folder) ++ "/" ++
normalize(alias)` whenever aliases and folders are slash-free, but not for
arbitrary pre-existing records (see the counterexample). -/
theorem c1_amended (st : Store) (ops : List Op) (h : storeInv st = true) :
    storeInv (execOps st ops) = true := by
  induction ops generalizing st with
  | nil => exact h
  | cons op rest ih =>
    rw [execOps, List.foldl_cons]
    exact ih (applyOp st op) (applyOp_inv st op h)

/-- Witness for `c1_amended`: the counterexample run itself keeps normalized
`(folder, alias)` pairs unique (even though its composite-string keys
collide). -/
theorem c1_amended_witness : storeInv (execOps [c1w] c1ops) = true :=
  c1_amended [c1w] c1ops (by decide)

end C1MainTheorems

end Blink
